import Mathlib

/-!
Verification development for the skool-downloader archival pipeline.

The definitions below are shallow embeddings of the TypeScript source:

* `normalizeConcurrency`, `runConcurrent` (pool branch as a transition
  system), the per-lesson task body of `downloadCourse`, and the run
  summary counters come from the course-download module
  (src/unnamed/part_002).
* `downloadVideo`, `downloadAsset` and the image-filename computation of
  `localizeImages` come from src/src/downloader.ts.
* The module sort of `regenerateIndex` comes from
  src/src/regenerate-index.ts.
* The native-video acquisition loop and the DOM-resource merge of
  `Scraper.extractLessonData` come from src/unnamed/part_005.

File-system state is modelled as an association list from path strings to
file sizes: the code's only observations of the file system in the claims
under study are `existsSync` plus `statSync(...).size`, and its only
mutations are whole-file writes.
-/

namespace SkoolDL

/-- File system model: association list mapping a path to the size of the
file stored there.  `none` lookup means the path does not exist. -/
abbrev FS := List (String × Nat)

/-- Size of the file at path `p`, if it exists (models
`fs.existsSync` / `fs.statSync(...).size`). -/
def fsLookup (fs : FS) (p : String) : Option Nat :=
  (fs.find? (fun e => e.1 = p)).map (fun e => e.2)

/-- Whole-file write: afterwards `p` exists with size `n`; every other
path is untouched.  The new entry shadows older entries for the same
path, since `fsLookup` returns the first match. -/
def fsWrite (fs : FS) (p : String) (n : Nat) : FS :=
  (p, n) :: fs

/-- The code's resumability check, used verbatim in three places
(`downloadVideo`, the per-resource skip in `downloadCourse`, and
`downloadAsset`): the file exists and has non-zero size
(`fs.existsSync(p) && fs.statSync(p).size > 0`). -/
def existsNonEmpty (fs : FS) (p : String) : Bool :=
  match fsLookup fs p with
  | some n => decide (0 < n)
  | none => false

/-! ### Downloader.downloadVideo (src/src/downloader.ts, lines 43-84) -/

/-- Result of one `downloadVideo` call.  `invokedTool` records whether the
external yt-dlp invocation happened, `loggedSkipSize` the size printed by
the "already exists, skipping" log line, `ok` whether the call returned
normally (`false` models the rethrown tool error). -/
structure VideoRun where
  fs : FS
  invokedTool : Bool
  loggedSkipSize : Option Nat
  ok : Bool
  deriving Repr, DecidableEq

/-- The tail of `downloadVideo` after the skip check: invoke the external
video tool.  `toolOutcome = some n` models a successful fetch that leaves
an `n`-byte file at `outputPath`; `none` models a tool failure, which
`downloadVideo` rethrows after logging. -/
def runVideoTool (fs : FS) (outputPath : String) (toolOutcome : Option Nat) : VideoRun :=
  match toolOutcome with
  | some n => ⟨fsWrite fs outputPath n, true, none, true⟩
  | none => ⟨fs, true, none, false⟩

/-- Embedding of `Downloader.downloadVideo(url, outputDir, filename)`.
The target path is `path.join(outputDir, filename + ".mp4")`.  If the
target already exists with size > 0 the function logs the existing size
and returns without touching the tool; otherwise it runs the tool. -/
def downloadVideo (fs : FS) (outputDir filename : String) (toolOutcome : Option Nat) :
    VideoRun :=
  let outputPath := outputDir ++ "/" ++ filename ++ ".mp4"
  match fsLookup fs outputPath with
  | some n =>
    if 0 < n then ⟨fs, false, some n, true⟩
    else runVideoTool fs outputPath toolOutcome
  | none => runVideoTool fs outputPath toolOutcome

/-! ### Downloader.downloadAsset (src/src/downloader.ts, lines 86-116) -/

/-- Network outcome of one asset download attempt: `ok n` is a completed
response of `n` bytes; `errorAfter k` is a request or stream error raised
after `k` bytes reached the write stream (`k = 0` for a request error
thrown before any data arrived). -/
inductive AssetOutcome
  | ok (bytes : Nat)
  | errorAfter (bytes : Nat)
  deriving Repr, DecidableEq

/-- Result of one `downloadAsset` call.  `requested` records whether the
HTTP request was issued (`false` when the skip check fired); `ok` whether
the returned promise resolved. -/
structure AssetRun where
  fs : FS
  requested : Bool
  ok : Bool
  deriving Repr, DecidableEq

/-- Embedding of `Downloader.downloadAsset(url, outputPath)`: skip when
the destination exists with size > 0; otherwise `fs.createWriteStream`
creates (or truncates) the destination file in place, the response is
piped straight into it, and an error path performs no cleanup — whatever
bytes were written stay at `outputPath`. -/
def downloadAsset (fs : FS) (outputPath : String) (outcome : AssetOutcome) : AssetRun :=
  if existsNonEmpty fs outputPath then ⟨fs, false, true⟩
  else
    let fs1 := fsWrite fs outputPath 0
    match outcome with
    | .ok n => ⟨fsWrite fs1 outputPath n, true, true⟩
    | .errorAfter k => ⟨fsWrite fs1 outputPath k, true, false⟩

/-! ### normalizeConcurrency (src/unnamed/part_002, lines 180-185) -/

/-- A JavaScript `number | undefined` argument: `undefined`, `NaN`, the
two infinities, or a finite number (modelled as a rational, which covers
every finite IEEE double exactly). -/
inductive JsNumArg
  | undef
  | nan
  | posInf
  | negInf
  | num (q : ℚ)
  deriving DecidableEq

/-- JavaScript `Number.isFinite`. -/
def jsIsFinite : JsNumArg → Bool
  | .num _ => true
  | _ => false

/-- Embedding of `normalizeConcurrency(value)`:
`if (!Number.isFinite(value) || value === undefined) return 8;`
`const floored = Math.floor(value); if (floored <= 0) return 8;`
`return Math.min(16, floored);` with `DEFAULT_CONCURRENCY = 8` and
`MAX_CONCURRENCY = 16`. -/
def normalizeConcurrency (value : JsNumArg) : Int :=
  match value with
  | .num q =>
    let floored : Int := ⌊q⌋
    if floored ≤ 0 then 8 else min 16 floored
  | _ => 8

/-! ### The per-lesson task body of downloadCourse (src/unnamed/part_002, lines 383-614)

The task body runs, in order: `fs.ensureDir(lessonDir)`;
`scraper.extractLessonData` (external collaborator); `localizeImages`;
an optional video download wrapped in its own try/catch (soft failure);
an optional resources phase whose directory creation is a hard step while
each individual resource download is caught per resource (soft);
`fs.writeFile(index.html)`; `writeAtomicJson(lesson.json)`; then the
completion callback.  Any exception escaping those hard steps lands in
the task-level catch, which bumps `failedLessons` and fires the
lesson-error callback.  Progress/status callbacks are notifications to
the CLI layer and are modelled as non-throwing. -/

/-- Observable effects of one lesson task, in execution order. -/
inductive LEvent
  | ensureLessonDir
  | extractData
  | localizeImages
  | invokeVideoTool
  | ensureResourcesDir
  | writeHtml
  | writeManifest
  | callbackComplete
  | callbackError
  deriving Repr, DecidableEq

/-- Environment for one lesson task: which hard steps succeed, whether the
lesson has a video link / resources, and the video tool outcome.  The
`videoLink` string is truthy-checked like `if (lessonData.videoLink)`. -/
structure LessonSpec where
  lessonDir : String
  ensureDirOk : Bool
  extractOk : Bool
  localizeOk : Bool
  videoLink : String
  videoToolOutcome : Option Nat
  hasResources : Bool
  ensureResourcesDirOk : Bool
  writeHtmlOk : Bool
  writeManifestOk : Bool

/-- Result of one lesson task: final file system, effect trace, counter
deltas (`completedLessons` / `failedLessons`), whether the lesson-error
callback fired, and the computed `hasVideo` flag. -/
structure LessonRun where
  fs : FS
  trace : List LEvent
  completedDelta : Nat
  failedDelta : Nat
  errorReported : Bool
  hasVideo : Bool

/-- The task-level catch block: `failedLessons += 1` and the
`onLessonError` callback; the manifest write is never reached. -/
def lessonFail (fs : FS) (t : List LEvent) : LessonRun :=
  ⟨fs, t ++ [.callbackError], 0, 1, true, false⟩

/-- The video phase of the task body:
`if (lessonData.videoLink) { try { downloadVideo(...) } catch { warn } }`.
Returns the file system after the phase, the events it emitted, and the
`hasVideo` flag (true only when the download call returned normally). -/
def lessonVideoPhase (fs : FS) (s : LessonSpec) : FS × List LEvent × Bool :=
  if s.videoLink ≠ "" then
    let vr := downloadVideo fs s.lessonDir "video" s.videoToolOutcome
    (vr.fs, if vr.invokedTool then [LEvent.invokeVideoTool] else [], vr.ok)
  else (fs, [], false)

/-- Embedding of the lesson task body (the `run` closure built in
`downloadCourse`).  Hard steps abort to `lessonFail` when their
environment flag is false; the video download is soft (its failure only
clears `hasVideo`); the resources directory creation is hard while each
individual resource download catches its own errors; `lesson.json` is
written strictly after `index.html`. -/
def lessonTaskRun (fs0 : FS) (s : LessonSpec) : LessonRun :=
  if !s.ensureDirOk then lessonFail fs0 [] else
  if !s.extractOk then lessonFail fs0 [.ensureLessonDir] else
  if !s.localizeOk then lessonFail fs0 [.ensureLessonDir, .extractData] else
  let v := lessonVideoPhase fs0 s
  let fs1 := v.1
  let t4 := [LEvent.ensureLessonDir, LEvent.extractData, LEvent.localizeImages] ++ v.2.1
  if s.hasResources ∧ !s.ensureResourcesDirOk then lessonFail fs1 t4 else
  let t5 := t4 ++ (if s.hasResources then [LEvent.ensureResourcesDir] else [])
  if !s.writeHtmlOk then lessonFail fs1 t5 else
  let fs2 := fsWrite fs1 (s.lessonDir ++ "/index.html") 1
  if !s.writeManifestOk then lessonFail fs2 (t5 ++ [.writeHtml]) else
  let fs3 := fsWrite fs2 (s.lessonDir ++ "/lesson.json") 1
  ⟨fs3, t5 ++ [.writeHtml, .writeManifest, .callbackComplete], 1, 0, false, v.2.2⟩

/-- Counter accumulation over a list of lesson tasks, as performed by the
shared `completedLessons` / `failedLessons` variables: each task adds its
deltas.  The increments are synchronous single-threaded updates, so the
totals are order-independent; the list order used here is task order. -/
def runLessonCounters (fs0 : FS) (specs : List LessonSpec) : Nat × Nat :=
  specs.foldl
    (fun acc s =>
      let r := lessonTaskRun fs0 s
      (acc.1 + r.completedDelta, acc.2 + r.failedDelta))
    (0, 0)

/-! ### runConcurrent (src/unnamed/part_002, lines 187-208)

`runConcurrent(tasks, concurrency)` returns immediately on an empty list;
runs a plain sequential `for` loop when `concurrency <= 1` or
`tasks.length === 1`; otherwise it spawns
`workerCount = Math.min(concurrency, tasks.length)` workers sharing a
cursor `index`.  Each worker repeatedly executes — atomically, since
JavaScript interleaves only at `await` points — `const current = index;
index += 1; if (current >= tasks.length) return;` and then awaits
`tasks[current]()`.  The pool is modelled as a transition system whose
atomic steps are exactly those synchronous sections. -/

/-- Status of one pool worker: about to claim, running task `t`, or
returned. -/
inductive WStatus
  | idle
  | running (t : Nat)
  | done
  deriving Repr, DecidableEq

/-- Pool state: the shared cursor, each worker's status, and the list of
task indices on which `tasks[current]()` has been invoked so far, in
invocation order. -/
structure PoolState where
  cursor : Nat
  workers : List WStatus
  started : List Nat
  deriving Repr, DecidableEq

/-- One atomic step of the pool over `n` tasks: an idle worker claims the
cursor (running the task if the claim is in range, returning otherwise),
or a running worker's awaited task settles and the worker loops back to
claim again.  Task executions always settle rather than reject: in
`downloadCourse` every lesson task catches its own exceptions at the task
boundary, so the awaited promise never rejects. -/
inductive PoolStep (n : Nat) : PoolState → PoolState → Prop
  | claimRun (s : PoolState) (i : Nat) (h : s.workers.get? i = some .idle)
      (hlt : s.cursor < n) :
      PoolStep n s ⟨s.cursor + 1, s.workers.set i (.running s.cursor), s.started ++ [s.cursor]⟩
  | claimDone (s : PoolState) (i : Nat) (h : s.workers.get? i = some .idle)
      (hge : n ≤ s.cursor) :
      PoolStep n s ⟨s.cursor + 1, s.workers.set i .done, s.started⟩
  | finish (s : PoolState) (i : Nat) (t : Nat)
      (h : s.workers.get? i = some (.running t)) :
      PoolStep n s ⟨s.cursor, s.workers.set i .idle, s.started⟩

/-- Initial pool state for `w` workers: cursor at 0, all workers about to
claim, no task started. -/
def poolInit (w : Nat) : PoolState :=
  ⟨0, List.replicate w .idle, []⟩

/-- States reachable by the pool spawned for `n` tasks with `w` workers
(in `runConcurrent`, `w = min concurrency n`). -/
def PoolReachable (n w : Nat) (s : PoolState) : Prop :=
  Relation.ReflTransGen (PoolStep n) (poolInit w) s

/-- Number of tasks currently in flight: workers sitting in
`await tasks[current]()`. -/
def inflight (s : PoolState) : Nat :=
  s.workers.countP (fun w => match w with | .running _ => true | _ => false)

/-- The pool (and hence `Promise.all`) returns exactly when every worker
has returned. -/
def poolDone (s : PoolState) : Prop :=
  ∀ w ∈ s.workers, w = WStatus.done

/-- Termination measure for the pool: strictly decreases on every step. -/
def poolMeasure (n : Nat) (s : PoolState) : Nat :=
  3 * (n - min s.cursor n) +
    (s.workers.map (fun w => match w with
      | WStatus.idle => 1
      | WStatus.running _ => 2
      | WStatus.done => 0)).sum

/-- The sequential branch of `runConcurrent` (taken when
`concurrency <= 1 || tasks.length === 1`): a `for (const task of tasks)`
loop awaiting each task before touching the next.  The fold records the
task indices in the order their executions are awaited. -/
def runSequentialOrder (n : Nat) : List Nat :=
  (List.range n).foldl (fun acc t => acc ++ [t]) []

/-! ### Module ordering in regenerateIndex (src/src/regenerate-index.ts, lines 80-160)

The scan loop pushes one record per module directory that contains at
least one lesson: `courseInfo.push({ title, lessons, index })` where
`index` is the lesson-manifest `moduleIndex` override when available and
otherwise the numeric directory-name prefix (999 as parse fallback).
When a course manifest with modules exists the code builds
`order = new Map(modules.map((m, i) => [m.moduleDirName, i]))` and sorts
with a comparator that looks up `a.moduleDirName` — a field the pushed
records do not have, so the lookup misses on both sides and the
comparator falls through to `a.index - b.index`. -/

/-- One entry of `courseManifest.modules`. -/
structure ManifestModule where
  index : Nat
  title : String
  moduleDirName : String
  deriving Repr, DecidableEq

/-- One record pushed onto `courseInfo` during the directory scan; it
carries exactly the fields of the object literal at
regenerate-index.ts:142-146 (`title`, `lessons`, `index`). -/
structure CourseInfoEntry where
  title : String
  lessonsCount : Nat
  index : Nat
  deriving Repr, DecidableEq

/-- Property access `entry.moduleDirName` on a `courseInfo` record: the
field is absent, so the access yields `undefined`. -/
def courseInfoDirName (_ : CourseInfoEntry) : Option String := none

/-- `order.get(key) ?? 9999` where `order` maps `moduleDirName` to its
position in `courseManifest.modules`; a `Map.get(undefined)` miss also
lands on 9999. -/
def moduleOrderRank (order : List (String × Nat)) (key : Option String) : Nat :=
  match key with
  | some d => (((order.find? (fun e => e.1 = d)).map (fun e => e.2))).getD 9999
  | none => 9999

/-- The JavaScript comparator passed to `courseInfo.sort` in the
manifest-present branch:
`if (orderA !== orderB) return orderA - orderB; return a.index - b.index;`. -/
def moduleCmp (order : List (String × Nat)) (a b : CourseInfoEntry) : Int :=
  let orderA := moduleOrderRank order (courseInfoDirName a)
  let orderB := moduleOrderRank order (courseInfoDirName b)
  if orderA ≠ orderB then (orderA : Int) - (orderB : Int)
  else (a.index : Int) - (b.index : Int)

/-- The `order` map built from `courseManifest.modules.map((m, i) =>
[m.moduleDirName, i])`. -/
def manifestOrderMap (modules : List ManifestModule) : List (String × Nat) :=
  modules.enum.map (fun p => (p.2.moduleDirName, p.1))

/-- Embedding of the module sort at the end of the `regenerateIndex` scan.
`Array.prototype.sort` is a stable ascending sort with respect to the
comparator, modelled by the stable `List.insertionSort`; a comparator
value `<= 0` keeps `a` before `b`. -/
def sortCourseInfo (manifestModules : List ManifestModule) (info : List CourseInfoEntry) :
    List CourseInfoEntry :=
  if manifestModules ≠ [] then
    let order := manifestOrderMap manifestModules
    List.insertionSort (fun a b => moduleCmp order a b ≤ 0) info
  else
    List.insertionSort (fun a b => (a.index : Int) - (b.index : Int) ≤ 0) info

/-! ### Native video acquisition in Scraper.extractLessonData
(src/unnamed/part_005, lines 308-363)

Entered when the lesson metadata has no direct `videoLink` but carries a
native `videoId`.  If the Mux play control is present and the click
succeeds, the code polls (`while (attempts < 10)`) an injected page probe
for a signed streaming-manifest URL, sleeping 1000 ms after each miss.
If polling exhausts, or the play control was absent, it falls back to
reconstructing the URL from `pageProps` video data; if `page.click`
threw, the surrounding catch skips the fallback as well. -/

/-- Events of the polling loop: one probe per iteration, one fixed
1000 ms sleep after each miss. -/
inductive PollEvent
  | probe (attempt : Nat)
  | wait (ms : Nat)
  deriving Repr, DecidableEq

/-- Predicate selecting probe events of a polling trace. -/
def isProbeEvent : PollEvent → Bool
  | PollEvent.probe _ => true
  | PollEvent.wait _ => false

/-- The polling loop from `attempts` up to the bound of 10: probe, break
on a hit, otherwise `waitForTimeout(1000)` and increment `attempts`.
Returns the emitted event trace and the found URL, if any. -/
def pollTrace (probe : Nat → Option String) (attempts : Nat) : List PollEvent × Option String :=
  if attempts < 10 then
    match probe attempts with
    | some v => ([.probe attempts], some v)
    | none =>
      let k := pollTrace probe (attempts + 1)
      (PollEvent.probe attempts :: PollEvent.wait 1000 :: k.1, k.2)
  else ([], none)
termination_by 10 - attempts

/-- The `pageProps.video` (or `pageProps.course.video`) object consulted
by the reconstruction fallback; absent fields are `undefined`. -/
structure VideoPageData where
  id : Option String
  playbackId : Option String
  playbackToken : Option String
  deriving Repr, DecidableEq

/-- The reconstruction fallback: requires a video object whose `id`
strictly equals the known `videoId` and whose `playbackId` and
`playbackToken` are both truthy, and then synthesizes
`https://stream.video.skool.com/<playbackId>.m3u8?token=<playbackToken>`. -/
def fallbackReconstruct (videoData : Option VideoPageData) (videoId : String) :
    Option String :=
  match videoData with
  | none => none
  | some vd =>
    match vd.playbackId, vd.playbackToken with
    | some p, some t =>
      if vd.id = some videoId ∧ p ≠ "" ∧ t ≠ "" then
        some ("https://stream.video.skool.com/" ++ p ++ ".m3u8?token=" ++ t)
      else none
    | _, _ => none

/-- Embedding of the native-video branch: play-control detection, click,
bounded polling, then the fallback.  `clickOk = false` models
`page.click` throwing, which lands in the catch block and bypasses the
fallback; the lesson then simply has no video. -/
def acquireNativeVideo (hasPlayButton clickOk : Bool) (probe : Nat → Option String)
    (videoId : String) (videoData : Option VideoPageData) :
    Option String × List PollEvent :=
  if hasPlayButton then
    if clickOk then
      let r := pollTrace probe 0
      match r.2 with
      | some v => (some v, r.1)
      | none => (fallbackReconstruct videoData videoId, r.1)
    else (none, [])
  else (fallbackReconstruct videoData videoId, [])

/-! ### Image filename computation in Downloader.localizeImages
(src/src/downloader.ts, lines 118-135)

For each remote `<img>` URL the local name is
`img_${Buffer.from(url).toString('base64').substring(0, 10)}_${path.basename(new URL(url).pathname)}`.
`Buffer.from(url)` is the UTF-8 encoding of the URL and
`toString('base64')` the standard base64 alphabet.  `new URL(url).pathname`
and `path.basename` are modelled for ordinary absolute http(s) URLs: the
path runs from the first `/` after the `://` authority separator up to
the first `?` or `#`, and the basename is its final `/`-separated
segment. -/

/-- Standard base64 alphabet in index order. -/
def base64Alphabet : String :=
  "ABCDEFGHIJKLMNOPQRSTUVWXYZabcdefghijklmnopqrstuvwxyz0123456789+/"

/-- Character for one 6-bit group (only indices below 64 occur). -/
def base64Digit (n : Nat) : Char := base64Alphabet.data.getD n 'A'

/-- Standard base64 encoding of a byte list, including `=` padding. -/
def base64Encode : List Nat → List Char
  | b1 :: b2 :: b3 :: rest =>
    base64Digit (b1 / 4) :: base64Digit ((b1 % 4) * 16 + b2 / 16) ::
      base64Digit ((b2 % 16) * 4 + b3 / 64) :: base64Digit (b3 % 64) :: base64Encode rest
  | [b1, b2] => [base64Digit (b1 / 4), base64Digit ((b1 % 4) * 16 + b2 / 16),
      base64Digit ((b2 % 16) * 4), '=']
  | [b1] => [base64Digit (b1 / 4), base64Digit ((b1 % 4) * 16), '=', '=']
  | [] => []

/-- UTF-8 bytes of one character. -/
def utf8Bytes (c : Char) : List Nat :=
  let n := c.toNat
  if n < 0x80 then [n]
  else if n < 0x800 then [0xC0 + n / 64, 0x80 + n % 64]
  else if n < 0x10000 then [0xE0 + n / 4096, 0x80 + (n / 64) % 64, 0x80 + n % 64]
  else [0xF0 + n / 262144, 0x80 + (n / 4096) % 64, 0x80 + (n / 64) % 64, 0x80 + n % 64]

/-- UTF-8 bytes of a string (`Buffer.from(url)`). -/
def strUtf8 (s : String) : List Nat := (s.data.map utf8Bytes).flatten

/-- Characters after the `://` scheme separator. -/
def dropScheme : List Char → List Char
  | ':' :: '/' :: '/' :: rest => rest
  | _ :: rest => dropScheme rest
  | [] => []

/-- Model of `new URL(url).pathname` for absolute http(s) URLs: from the
first `/` after the authority up to the first `?` or `#`; `/` when the
URL has no path. -/
def urlPathname (url : String) : String :=
  let p := ((dropScheme url.data).dropWhile (fun c => c ≠ '/')).takeWhile
    (fun c => c ≠ '?' ∧ c ≠ '#')
  if p = [] then "/" else String.mk p

/-- Model of `path.basename` on a URL pathname: the final `/`-separated
segment. -/
def pathBasename (p : String) : String :=
  String.mk ((p.data.reverse.takeWhile (fun c => c ≠ '/')).reverse)

/-- The local filename `localizeImages` computes for an image URL. -/
def localizedImageName (url : String) : String :=
  "img_" ++ String.mk ((base64Encode (strUtf8 url)).take 10) ++ "_" ++
    pathBasename (urlPathname url)

/-! ### DOM-resource merge in Scraper.extractLessonData
(src/unnamed/part_005, lines 409-432) -/

/-- A resource record as used by the merge: metadata-derived entries come
first, DOM-scanned entries may be appended. -/
structure Resource where
  title : String
  file_id : Option String := none
  file_name : Option String := none
  downloadUrl : Option String := none
  isExternal : Bool := false
  deriving Repr, DecidableEq

/-- A DOM-scanned resource candidate: `title` is
`labelSpan.textContent?.trim()` (possibly `undefined`), `url` the anchor
href, `isExternal` the host heuristic computed in the page. -/
structure DomResource where
  title : Option String
  url : Option String
  isExternal : Bool
  deriving Repr, DecidableEq

/-- Strict equality `r.title === domRes.title` between a string and a
possibly-`undefined` string. -/
def titleMatches (rtitle : String) (dtitle : Option String) : Bool :=
  match dtitle with
  | some t => rtitle = t
  | none => false

/-- JavaScript truthiness of a `string | undefined` value. -/
def truthyStr : Option String → Bool
  | some s => !(s = "")
  | none => false

/-- One iteration of the merge loop: the DOM resource is appended only
when no entry of the accumulated list (metadata entries plus previously
added DOM entries) has a strictly equal title, and its own title and url
are truthy; the pushed record mirrors the two object literals in the
source. -/
def mergeDomResource (acc : List Resource) (d : DomResource) : List Resource :=
  let ex := acc.any (fun r => titleMatches r.title d.title)
  if !ex ∧ truthyStr d.title then
    match d.title, d.url with
    | some t, some u =>
      if u ≠ "" then
        if d.isExternal then
          acc ++ [{ title := t, downloadUrl := some u, isExternal := true,
                    file_name := some t }]
        else
          acc ++ [{ title := t, downloadUrl := some u, file_name := some t }]
      else acc
    | _, _ => acc
  else acc

/-- The whole merge loop `for (const domRes of domResources) { ... }`
starting from the metadata-derived list. -/
def mergeDomResources (rs : List Resource) (ds : List DomResource) : List Resource :=
  ds.foldl mergeDomResource rs

/-! ## Shared helper lemmas -/

/-- Strings with equal character data are equal. -/
theorem string_eq_of_data_eq {a b : String} (h : a.data = b.data) : a = b := by
  cases a
  cases b
  exact congrArg String.mk h

/-- Appending different suffixes to the same string yields different
strings. -/
theorem string_append_ne {a b : String} (d : String) (h : a ≠ b) : d ++ a ≠ d ++ b := by
  intro hd
  apply h
  apply string_eq_of_data_eq
  have := congrArg String.data hd
  rw [String.data_append, String.data_append] at this
  exact List.append_cancel_left this

/-- Reading back the path just written. -/
theorem fsLookup_fsWrite_self (fs : FS) (p : String) (n : Nat) :
    fsLookup (fsWrite fs p n) p = some n := by
  simp [fsLookup, fsWrite]

/-- Writes to one path do not affect lookups of another. -/
theorem fsLookup_fsWrite_ne (fs : FS) {p q : String} (n : Nat) (h : q ≠ p) :
    fsLookup (fsWrite fs p n) q = fsLookup fs q := by
  have hpq : (decide ((p, n).1 = q)) = false := by
    simp only [decide_eq_false_iff_not]
    intro hq
    exact h hq.symm
  simp only [fsLookup, fsWrite, List.find?_cons, hpq]

/-! ## C7: effective concurrency bound -/

/-- Claim C7 states that out-of-range values are "clamped to [1, 16]"
with "values below 1 map to 1".  The code instead returns the default 8
whenever `Math.floor(value) <= 0`: at the concrete input 0 the result is
8, not the claimed 1. -/
theorem normalizeConcurrency_below_one_not_one :
    normalizeConcurrency (JsNumArg.num 0) = 8 ∧ (8 : Int) ≠ 1 := by
  constructor
  · decide
  · decide

/-- Claim C7, amended: the effective bound is 8 when the option is absent
or not a finite number, 8 (the default, not 1) when the supplied value
floors to 0 or below, and otherwise the floored value capped at 16; the
result always lies in [1, 16]. -/
theorem normalizeConcurrency_amended (v : JsNumArg) :
    1 ≤ normalizeConcurrency v ∧ normalizeConcurrency v ≤ 16
    ∧ (jsIsFinite v = false → normalizeConcurrency v = 8)
    ∧ (∀ q : ℚ, v = JsNumArg.num q → ⌊q⌋ ≤ 0 → normalizeConcurrency v = 8)
    ∧ (∀ q : ℚ, v = JsNumArg.num q → 16 ≤ ⌊q⌋ → normalizeConcurrency v = 16)
    ∧ (∀ q : ℚ, v = JsNumArg.num q → 1 ≤ ⌊q⌋ → ⌊q⌋ ≤ 16 →
        normalizeConcurrency v = ⌊q⌋) := by
  cases v with
  | num q =>
    by_cases h : (⌊q⌋ : Int) ≤ 0
    · refine ⟨?_, ?_, ?_, ?_, ?_, ?_⟩ <;>
        simp [normalizeConcurrency, h, jsIsFinite] <;> omega
    · refine ⟨?_, ?_, ?_, ?_, ?_, ?_⟩ <;>
        simp [normalizeConcurrency, h, jsIsFinite] <;> omega
  | undef => refine ⟨?_, ?_, ?_, ?_, ?_, ?_⟩ <;> simp [normalizeConcurrency, jsIsFinite]
  | nan => refine ⟨?_, ?_, ?_, ?_, ?_, ?_⟩ <;> simp [normalizeConcurrency, jsIsFinite]
  | posInf => refine ⟨?_, ?_, ?_, ?_, ?_, ?_⟩ <;> simp [normalizeConcurrency, jsIsFinite]
  | negInf => refine ⟨?_, ?_, ?_, ?_, ?_, ?_⟩ <;> simp [normalizeConcurrency, jsIsFinite]

/-- Witness for the amended C7 theorem at concrete inputs 0 and 20. -/
theorem normalizeConcurrency_amended_witness :
    normalizeConcurrency (JsNumArg.num 0) = 8
    ∧ normalizeConcurrency (JsNumArg.num 20) = 16 := by
  refine ⟨?_, ?_⟩
  · exact (normalizeConcurrency_amended (JsNumArg.num 0)).2.2.2.1 0 rfl (by decide)
  · exact (normalizeConcurrency_amended (JsNumArg.num 20)).2.2.2.2.1 20 rfl (by decide)

/-! ## C3: existing non-empty video file short-circuits the tool -/

/-- Claim C3: when `<outputDir>/<filename>.mp4` already exists with
size > 0, `downloadVideo` logs the existing size and returns without
invoking the external tool, leaving the file system unchanged; and in a
rerun of a lesson whose video file exists but whose manifest is absent,
the lesson task re-materializes `lesson.json` without any tool
invocation. -/
theorem downloadVideo_skips_existing (fs : FS) (dir fn : String) (n : Nat)
    (outcome : Option Nat)
    (h : fsLookup fs (dir ++ "/" ++ fn ++ ".mp4") = some n) (hn : 0 < n) :
    downloadVideo fs dir fn outcome = ⟨fs, false, some n, true⟩
    ∧ (∀ s : LessonSpec, s.lessonDir = dir → fn = "video" →
        s.ensureDirOk = true → s.extractOk = true → s.localizeOk = true →
        s.videoLink ≠ "" →
        (s.hasResources = true → s.ensureResourcesDirOk = true) →
        s.writeHtmlOk = true → s.writeManifestOk = true →
        LEvent.invokeVideoTool ∉ (lessonTaskRun fs s).trace
        ∧ fsLookup (lessonTaskRun fs s).fs (dir ++ "/lesson.json") = some 1
        ∧ (lessonTaskRun fs s).completedDelta = 1) := by
  have hskipAll : ∀ o, downloadVideo fs dir fn o = ⟨fs, false, some n, true⟩ := by
    intro o
    simp [downloadVideo, h, hn]
  refine ⟨hskipAll outcome, ?_⟩
  intro s hdir hfn h1 h2 h3 hv hres h5 h6
  subst hdir
  subst hfn
  have hphase : lessonVideoPhase fs s = (fs, [], true) := by
    simp [lessonVideoPhase, hv, hskipAll s.videoToolOutcome]
  cases hr : s.hasResources with
  | false =>
    simp [lessonTaskRun, h1, h2, h3, h5, h6, hphase, hr, fsLookup_fsWrite_self]
  | true =>
    simp [lessonTaskRun, h1, h2, h3, h5, h6, hphase, hr, hres hr, fsLookup_fsWrite_self]

/-- Witness for C3 at a concrete file system and lesson spec. -/
theorem downloadVideo_skips_existing_witness :
    downloadVideo [("d/video.mp4", 5)] "d" "video" none =
      ⟨[("d/video.mp4", 5)], false, some 5, true⟩
    ∧ fsLookup
        (lessonTaskRun [("d/video.mp4", 5)]
          ⟨"d", true, true, true, "u", none, false, true, true, true⟩).fs
        ("d" ++ "/lesson.json") = some 1 := by
  have h := downloadVideo_skips_existing [("d/video.mp4", 5)] "d" "video" 5 none
    (by decide) (by decide)
  refine ⟨h.1, ?_⟩
  exact (h.2 ⟨"d", true, true, true, "u", none, false, true, true, true⟩
    rfl rfl rfl rfl rfl (by decide) (by intro hx; exact absurd hx (by decide)) rfl rfl).2.1

/-! ## C10: downloadAsset error handling -/

/-- Claim C10 asserts that after a request or stream error the leftover
destination file is treated as a completed download by every subsequent
existence-with-non-zero-size check.  At the concrete input of a request
error thrown before any byte arrived (a 0-byte leftover), the file is
indeed left in place with no cleanup, but the check returns false — the
download would be retried, not treated as completed. -/
theorem downloadAsset_zero_byte_counterexample :
    (downloadAsset [] "r/a.pdf" (AssetOutcome.errorAfter 0)).requested = true
    ∧ (downloadAsset [] "r/a.pdf" (AssetOutcome.errorAfter 0)).ok = false
    ∧ fsLookup (downloadAsset [] "r/a.pdf" (AssetOutcome.errorAfter 0)).fs "r/a.pdf" = some 0
    ∧ existsNonEmpty (downloadAsset [] "r/a.pdf" (AssetOutcome.errorAfter 0)).fs "r/a.pdf"
        = false := by
  decide

/-- Claim C10, amended: `downloadAsset` streams straight to the final
destination and performs no cleanup on error — the partial file stays at
the destination with exactly the bytes that were written; if at least one
byte was written, every subsequent existence-with-non-zero-size check
(`downloadAsset` itself, the resource skip logic, and `downloadVideo`
when the destination is its target path) treats the leftover as a
completed download; a 0-byte leftover is not treated as completed. -/
theorem downloadAsset_amended (fs : FS) (p : String) (k : Nat)
    (h : existsNonEmpty fs p = false) :
    (downloadAsset fs p (AssetOutcome.errorAfter k)).requested = true
    ∧ (downloadAsset fs p (AssetOutcome.errorAfter k)).ok = false
    ∧ fsLookup (downloadAsset fs p (AssetOutcome.errorAfter k)).fs p = some k
    ∧ (0 < k →
        existsNonEmpty (downloadAsset fs p (AssetOutcome.errorAfter k)).fs p = true
        ∧ (∀ o, downloadAsset (downloadAsset fs p (AssetOutcome.errorAfter k)).fs p o =
            ⟨(downloadAsset fs p (AssetOutcome.errorAfter k)).fs, false, true⟩)
        ∧ (∀ dir fn o, p = dir ++ "/" ++ fn ++ ".mp4" →
            downloadVideo (downloadAsset fs p (AssetOutcome.errorAfter k)).fs dir fn o =
              ⟨(downloadAsset fs p (AssetOutcome.errorAfter k)).fs, false, some k, true⟩))
    ∧ (k = 0 →
        existsNonEmpty (downloadAsset fs p (AssetOutcome.errorAfter k)).fs p = false) := by
  have hrun : downloadAsset fs p (AssetOutcome.errorAfter k) =
      ⟨fsWrite (fsWrite fs p 0) p k, true, false⟩ := by
    simp [downloadAsset, h]
  have hlook : fsLookup (fsWrite (fsWrite fs p 0) p k) p = some k :=
    fsLookup_fsWrite_self _ _ _
  refine ⟨by simp [hrun], by simp [hrun], by simp [hrun, hlook], ?_, ?_⟩
  · intro hk
    have hne : existsNonEmpty (fsWrite (fsWrite fs p 0) p k) p = true := by
      simp [existsNonEmpty, hlook, hk]
    refine ⟨by simp [hrun, hne], ?_, ?_⟩
    · intro o
      rw [hrun]
      simp [downloadAsset, hne]
    · intro dir fn o hp
      subst hp
      simp [hrun, downloadVideo, hlook, hk]
  · intro hk
    subst hk
    simp [hrun, existsNonEmpty, hlook]

/-- Witness for the amended C10 theorem: a stream error after 3 bytes at
`d/v.mp4`; the leftover passes the skip checks. -/
theorem downloadAsset_amended_witness :
    existsNonEmpty (downloadAsset [] ("d" ++ "/" ++ "v" ++ ".mp4")
        (AssetOutcome.errorAfter 3)).fs ("d" ++ "/" ++ "v" ++ ".mp4") = true
    ∧ downloadVideo (downloadAsset [] ("d" ++ "/" ++ "v" ++ ".mp4")
        (AssetOutcome.errorAfter 3)).fs "d" "v" none =
      ⟨(downloadAsset [] ("d" ++ "/" ++ "v" ++ ".mp4") (AssetOutcome.errorAfter 3)).fs,
        false, some 3, true⟩ := by
  have h := (downloadAsset_amended [] ("d" ++ "/" ++ "v" ++ ".mp4") 3 (by decide)).2.2.2.1
    (by decide)
  exact ⟨h.1, h.2.2 "d" "v" none rfl⟩

/-! ## C9: DOM resources merge only on fresh titles -/

/-- Auxiliary induction for the merge loop: it only ever appends, and
every appended entry has a title strictly different from every entry of
the starting list and from the other appended entries. -/
theorem mergeDomResources_shape (ds : List DomResource) :
    ∀ acc : List Resource, ∃ added, mergeDomResources acc ds = acc ++ added
      ∧ (∀ a ∈ added, ∀ r ∈ acc, a.title ≠ r.title)
      ∧ added.Pairwise (fun a b => a.title ≠ b.title) := by
  induction ds with
  | nil =>
    intro acc
    exact ⟨[], by simp [mergeDomResources], by simp, List.Pairwise.nil⟩
  | cons d tl ih =>
    intro acc
    have hstep : ∃ s₀ : List Resource, mergeDomResource acc d = acc ++ s₀
        ∧ (∀ a ∈ s₀, ∀ r ∈ acc, a.title ≠ r.title)
        ∧ s₀.Pairwise (fun a b => a.title ≠ b.title) := by
      unfold mergeDomResource
      by_cases hex : (acc.any fun r => titleMatches r.title d.title) = true
      · exact ⟨[], by simp [hex], by simp, by simp⟩
      · have hfresh : ∀ r ∈ acc, titleMatches r.title d.title = false := by
          intro r hr
          by_contra hc
          exact hex (List.any_eq_true.mpr ⟨r, hr, by simpa using hc⟩)
        by_cases ht : truthyStr d.title = true
        · cases hdt : d.title with
          | none => simp [truthyStr, hdt] at ht
          | some t =>
            cases hdu : d.url with
            | none => exact ⟨[], by simp [hex, ht, hdt, hdu], by simp, by simp⟩
            | some u =>
              by_cases hu : u ≠ ""
              · have htt : ∀ r ∈ acc, r.title ≠ t := by
                  intro r hr
                  have := hfresh r hr
                  simpa [titleMatches, hdt] using this
                have hcond : (∀ x ∈ acc, titleMatches x.title (some t) = false)
                    ∧ truthyStr (some t) = true :=
                  ⟨fun x hx => hdt ▸ hfresh x hx, hdt ▸ ht⟩
                cases hde : d.isExternal with
                | true =>
                  refine ⟨[⟨t, none, some t, some u, true⟩],
                    by simp [hex, ht, hdt, hdu, hu, hde]; exact hcond, ?_, by simp⟩
                  intro a ha r hr
                  simp at ha
                  subst ha
                  exact fun hh => htt r hr hh.symm
                | false =>
                  refine ⟨[⟨t, none, some t, some u, false⟩],
                    by simp [hex, ht, hdt, hdu, hu, hde]; exact hcond, ?_, by simp⟩
                  intro a ha r hr
                  simp at ha
                  subst ha
                  exact fun hh => htt r hr hh.symm
              · exact ⟨[], by simp [hex, ht, hdt, hdu, hu], by simp, by simp⟩
        · have ht' : truthyStr d.title = false := by
            cases hq : truthyStr d.title
            · rfl
            · exact absurd hq ht
          exact ⟨[], by simp [hex, ht'], by simp, by simp⟩
    obtain ⟨s₀, hs₀, hfresh₀, hpw₀⟩ := hstep
    obtain ⟨s₁, hs₁, hfresh₁, hpw₁⟩ := ih (mergeDomResource acc d)
    refine ⟨s₀ ++ s₁, ?_, ?_, ?_⟩
    · have : mergeDomResources acc (d :: tl) = mergeDomResources (mergeDomResource acc d) tl := by
        simp [mergeDomResources]
      rw [this, hs₁, hs₀, List.append_assoc]
    · intro a ha r hr
      rcases List.mem_append.mp ha with h₀ | h₁
      · exact hfresh₀ a h₀ r hr
      · exact hfresh₁ a h₁ r (by rw [hs₀]; exact List.mem_append.mpr (Or.inl hr))
    · rw [List.pairwise_append]
      refine ⟨hpw₀, hpw₁, ?_⟩
      intro a ha b hb
      have := hfresh₁ b hb a (by rw [hs₀]; exact List.mem_append.mpr (Or.inr ha))
      exact fun hh => this hh.symm

/-- Claim C9: DOM-scanned resources are appended to the metadata-derived
list only when no accumulated entry has the same title (so metadata
entries are never displaced and remain authoritative), and in the
spec's scenario — one metadata resource and one DOM resource with equal
titles but different URLs — the merged list is exactly the metadata
list, carrying the metadata-derived URL. -/
theorem mergeDomResources_metadata_authoritative (rs : List Resource)
    (ds : List DomResource) :
    (∃ added, mergeDomResources rs ds = rs ++ added
      ∧ (∀ a ∈ added, ∀ r ∈ rs, a.title ≠ r.title)
      ∧ added.Pairwise (fun a b => a.title ≠ b.title))
    ∧ (∀ (r : Resource) (d : DomResource), titleMatches r.title d.title = true →
        mergeDomResources [r] [d] = [r]) := by
  refine ⟨mergeDomResources_shape ds rs, ?_⟩
  intro r d hm
  simp [mergeDomResources, mergeDomResource, hm]

/-- Witness for C9 on the spec's own example: metadata "Guide.pdf" with
URL u1 against a DOM-scanned "Guide.pdf" with URL u2. -/
theorem mergeDomResources_metadata_authoritative_witness :
    mergeDomResources [{ title := "Guide.pdf", downloadUrl := some "u1" }]
      [⟨some "Guide.pdf", some "u2", false⟩] =
      [{ title := "Guide.pdf", downloadUrl := some "u1" }] :=
  (mergeDomResources_metadata_authoritative
      [{ title := "Guide.pdf", downloadUrl := some "u1" }]
      [⟨some "Guide.pdf", some "u2", false⟩]).2
    { title := "Guide.pdf", downloadUrl := some "u1" }
    ⟨some "Guide.pdf", some "u2", false⟩ (by decide)

/-! ## C2: the lesson manifest is written last -/

/-- The video target path in normalized form. -/
theorem videoPath_eq (dir : String) :
    dir ++ "/" ++ "video" ++ ".mp4" = dir ++ "/video.mp4" := by
  rw [String.append_assoc, String.append_assoc]
  rfl

/-- A `downloadVideo` call never touches paths other than its own target
file. -/
theorem downloadVideo_fs_other (fs : FS) (dir fn : String) (o : Option Nat) (q : String)
    (hq : q ≠ dir ++ "/" ++ fn ++ ".mp4") :
    fsLookup (downloadVideo fs dir fn o).fs q = fsLookup fs q := by
  unfold downloadVideo runVideoTool
  cases h : fsLookup fs (dir ++ "/" ++ fn ++ ".mp4") with
  | some n =>
    by_cases hn : 0 < n
    · simp [h, hn]
    · cases o with
      | some m => simp [h, hn, fsLookup_fsWrite_ne fs m hq]
      | none => simp [h, hn]
  | none =>
    cases o with
    | some m => simp [h, fsLookup_fsWrite_ne fs m hq]
    | none => simp [h]

/-- The video phase emits at most a tool-invocation event and only ever
writes the video target file. -/
theorem lessonVideoPhase_spec (fs : FS) (s : LessonSpec) :
    LEvent.writeManifest ∉ (lessonVideoPhase fs s).2.1
    ∧ LEvent.writeHtml ∉ (lessonVideoPhase fs s).2.1
    ∧ LEvent.localizeImages ∉ (lessonVideoPhase fs s).2.1
    ∧ ∀ q, q ≠ s.lessonDir ++ "/" ++ "video" ++ ".mp4" →
        fsLookup (lessonVideoPhase fs s).1 q = fsLookup fs q := by
  unfold lessonVideoPhase
  by_cases hv : s.videoLink ≠ ""
  · rw [if_pos hv]
    refine ⟨?_, ?_, ?_, ?_⟩
    · cases hinv : (downloadVideo fs s.lessonDir "video" s.videoToolOutcome).invokedTool <;>
        simp [hinv]
    · cases hinv : (downloadVideo fs s.lessonDir "video" s.videoToolOutcome).invokedTool <;>
        simp [hinv]
    · cases hinv : (downloadVideo fs s.lessonDir "video" s.videoToolOutcome).invokedTool <;>
        simp [hinv]
    · intro q hq
      exact downloadVideo_fs_other fs s.lessonDir "video" s.videoToolOutcome q hq
  · rw [if_neg hv]
    simp

/-- A lesson task whose hard steps all succeed produces exactly: video
phase effects, then `index.html`, then `lesson.json`, then the completion
callback. -/
theorem lessonTaskRun_success_shape (fs0 : FS) (s : LessonSpec)
    (h1 : s.ensureDirOk = true) (h2 : s.extractOk = true) (h3 : s.localizeOk = true)
    (h4 : s.hasResources = true → s.ensureResourcesDirOk = true)
    (h5 : s.writeHtmlOk = true) (h6 : s.writeManifestOk = true) :
    lessonTaskRun fs0 s = ⟨fsWrite (fsWrite (lessonVideoPhase fs0 s).1
        (s.lessonDir ++ "/index.html") 1) (s.lessonDir ++ "/lesson.json") 1,
      ([LEvent.ensureLessonDir, LEvent.extractData, LEvent.localizeImages]
        ++ (lessonVideoPhase fs0 s).2.1
        ++ (if s.hasResources then [LEvent.ensureResourcesDir] else []))
        ++ [LEvent.writeHtml, LEvent.writeManifest, LEvent.callbackComplete],
      1, 0, false, (lessonVideoPhase fs0 s).2.2⟩ := by
  cases hr : s.hasResources with
  | false => simp [lessonTaskRun, h1, h2, h3, h5, h6, hr]
  | true => simp [lessonTaskRun, h1, h2, h3, h4 hr, h5, h6, hr]

/-- Claim C2: within one lesson task, `lesson.json` is written only after
`index.html` and the asset steps; whenever the manifest-write event
occurs, the trace ends with `writeHtml` immediately followed by
`writeManifest` and the completion callback, with the image-localization
step strictly earlier; if any earlier hard step throws, no `lesson.json`
is written in that run; and a `lesson.json` that appears during the run
witnesses that `index.html` was written in the same run. -/
theorem lessonManifest_written_last (fs0 : FS) (s : LessonSpec) :
    (LEvent.writeManifest ∈ (lessonTaskRun fs0 s).trace →
        ∃ pre, (lessonTaskRun fs0 s).trace =
            pre ++ [LEvent.writeHtml, LEvent.writeManifest, LEvent.callbackComplete]
          ∧ LEvent.localizeImages ∈ pre
          ∧ LEvent.writeManifest ∉ pre ∧ LEvent.writeHtml ∉ pre)
    ∧ ((s.ensureDirOk = false ∨ s.extractOk = false ∨ s.localizeOk = false
          ∨ (s.hasResources = true ∧ s.ensureResourcesDirOk = false)
          ∨ s.writeHtmlOk = false) →
        LEvent.writeManifest ∉ (lessonTaskRun fs0 s).trace
        ∧ fsLookup (lessonTaskRun fs0 s).fs (s.lessonDir ++ "/lesson.json")
            = fsLookup fs0 (s.lessonDir ++ "/lesson.json"))
    ∧ (fsLookup fs0 (s.lessonDir ++ "/lesson.json") = none →
        fsLookup (lessonTaskRun fs0 s).fs (s.lessonDir ++ "/lesson.json") ≠ none →
        LEvent.writeManifest ∈ (lessonTaskRun fs0 s).trace
        ∧ fsLookup (lessonTaskRun fs0 s).fs (s.lessonDir ++ "/index.html") = some 1) := by
  obtain ⟨hvm, hvh, hvl, hvfs⟩ := lessonVideoPhase_spec fs0 s
  have hmv : fsLookup (lessonVideoPhase fs0 s).1 (s.lessonDir ++ "/lesson.json")
      = fsLookup fs0 (s.lessonDir ++ "/lesson.json") := by
    apply hvfs
    rw [videoPath_eq]
    exact string_append_ne s.lessonDir (by decide)
  have hpaths : s.lessonDir ++ "/lesson.json" ≠ s.lessonDir ++ "/index.html" :=
    string_append_ne s.lessonDir (by decide)
  cases h1 : s.ensureDirOk with
  | false =>
    have hshape : lessonTaskRun fs0 s = ⟨fs0, [LEvent.callbackError], 0, 1, true, false⟩ := by
      simp [lessonTaskRun, h1, lessonFail]
    rw [hshape]
    refine ⟨by simp, fun _ => ⟨by simp, rfl⟩, ?_⟩
    intro ha hb
    exact absurd ha hb
  | true =>
  cases h2 : s.extractOk with
  | false =>
    have hshape : lessonTaskRun fs0 s =
        ⟨fs0, [LEvent.ensureLessonDir, LEvent.callbackError], 0, 1, true, false⟩ := by
      simp [lessonTaskRun, h1, h2, lessonFail]
    rw [hshape]
    refine ⟨by simp, fun _ => ⟨by simp, rfl⟩, ?_⟩
    intro ha hb
    exact absurd ha hb
  | true =>
  cases h3 : s.localizeOk with
  | false =>
    have hshape : lessonTaskRun fs0 s =
        ⟨fs0, [LEvent.ensureLessonDir, LEvent.extractData, LEvent.callbackError],
          0, 1, true, false⟩ := by
      simp [lessonTaskRun, h1, h2, h3, lessonFail]
    rw [hshape]
    refine ⟨by simp, fun _ => ⟨by simp, rfl⟩, ?_⟩
    intro ha hb
    exact absurd ha hb
  | true =>
  cases hr : s.hasResources with
  | true =>
    cases he4 : s.ensureResourcesDirOk with
    | false =>
      have hshape : lessonTaskRun fs0 s = ⟨(lessonVideoPhase fs0 s).1,
          ([LEvent.ensureLessonDir, LEvent.extractData, LEvent.localizeImages]
            ++ (lessonVideoPhase fs0 s).2.1) ++ [LEvent.callbackError],
          0, 1, true, false⟩ := by
        simp [lessonTaskRun, h1, h2, h3, hr, he4, lessonFail]
      rw [hshape]
      refine ⟨?_, fun _ => ⟨?_, hmv⟩, ?_⟩
      · intro hm
        exfalso
        simp at hm
        exact hvm hm
      · intro hm
        simp at hm
        exact hvm hm
      · intro ha hb
        rw [hmv] at hb
        exact absurd ha hb
    | true =>
      cases h5 : s.writeHtmlOk with
      | false =>
        have hshape : lessonTaskRun fs0 s = ⟨(lessonVideoPhase fs0 s).1,
            ([LEvent.ensureLessonDir, LEvent.extractData, LEvent.localizeImages]
              ++ (lessonVideoPhase fs0 s).2.1 ++ [LEvent.ensureResourcesDir])
              ++ [LEvent.callbackError],
            0, 1, true, false⟩ := by
          simp [lessonTaskRun, h1, h2, h3, hr, he4, h5, lessonFail]
        rw [hshape]
        refine ⟨?_, fun _ => ⟨?_, hmv⟩, ?_⟩
        · intro hm
          exfalso
          simp at hm
          exact hvm hm
        · intro hm
          simp at hm
          exact hvm hm
        · intro ha hb
          rw [hmv] at hb
          exact absurd ha hb
      | true =>
        cases h6 : s.writeManifestOk with
        | false =>
          have hshape : lessonTaskRun fs0 s =
              ⟨fsWrite (lessonVideoPhase fs0 s).1 (s.lessonDir ++ "/index.html") 1,
              ([LEvent.ensureLessonDir, LEvent.extractData, LEvent.localizeImages]
                ++ (lessonVideoPhase fs0 s).2.1 ++ [LEvent.ensureResourcesDir]
                ++ [LEvent.writeHtml]) ++ [LEvent.callbackError],
              0, 1, true, false⟩ := by
            simp [lessonTaskRun, h1, h2, h3, hr, he4, h5, h6, lessonFail]
          rw [hshape]
          refine ⟨?_, ?_, ?_⟩
          · intro hm
            exfalso
            simp at hm
            exact hvm hm
          · intro hd
            rcases hd with hd | hd | hd | hd | hd
            · simp [h1] at hd
            · simp [h2] at hd
            · simp [h3] at hd
            · simp [he4] at hd
            · simp [h5] at hd
          · intro ha hb
            rw [fsLookup_fsWrite_ne _ _ hpaths, hmv] at hb
            exact absurd ha hb
        | true =>
          have hshape := lessonTaskRun_success_shape fs0 s h1 h2 h3 (fun _ => he4) h5 h6
          rw [hshape]
          refine ⟨?_, ?_, ?_⟩
          · intro _
            refine ⟨[LEvent.ensureLessonDir, LEvent.extractData, LEvent.localizeImages]
                ++ (lessonVideoPhase fs0 s).2.1
                ++ (if s.hasResources then [LEvent.ensureResourcesDir] else []), rfl,
                by simp, ?_, ?_⟩
            · intro hm
              simp [hr] at hm
              exact hvm hm
            · intro hm
              simp [hr] at hm
              exact hvh hm
          · intro hd
            rcases hd with hd | hd | hd | hd | hd
            · simp [h1] at hd
            · simp [h2] at hd
            · simp [h3] at hd
            · simp [he4] at hd
            · simp [h5] at hd
          · intro ha hb
            refine ⟨by simp, ?_⟩
            rw [fsLookup_fsWrite_ne _ _ hpaths.symm, fsLookup_fsWrite_self]
  | false =>
    cases h5 : s.writeHtmlOk with
    | false =>
      have hshape : lessonTaskRun fs0 s = ⟨(lessonVideoPhase fs0 s).1,
          ([LEvent.ensureLessonDir, LEvent.extractData, LEvent.localizeImages]
            ++ (lessonVideoPhase fs0 s).2.1) ++ [LEvent.callbackError],
          0, 1, true, false⟩ := by
        simp [lessonTaskRun, h1, h2, h3, hr, h5, lessonFail]
      rw [hshape]
      refine ⟨?_, fun _ => ⟨?_, hmv⟩, ?_⟩
      · intro hm
        exfalso
        simp at hm
        exact hvm hm
      · intro hm
        simp at hm
        exact hvm hm
      · intro ha hb
        rw [hmv] at hb
        exact absurd ha hb
    | true =>
      cases h6 : s.writeManifestOk with
      | false =>
        have hshape : lessonTaskRun fs0 s =
            ⟨fsWrite (lessonVideoPhase fs0 s).1 (s.lessonDir ++ "/index.html") 1,
            ([LEvent.ensureLessonDir, LEvent.extractData, LEvent.localizeImages]
              ++ (lessonVideoPhase fs0 s).2.1 ++ [LEvent.writeHtml])
              ++ [LEvent.callbackError],
            0, 1, true, false⟩ := by
          simp [lessonTaskRun, h1, h2, h3, hr, h5, h6, lessonFail]
        rw [hshape]
        refine ⟨?_, ?_, ?_⟩
        · intro hm
          exfalso
          simp at hm
          exact hvm hm
        · intro hd
          rcases hd with hd | hd | hd | hd | hd
          · simp [h1] at hd
          · simp [h2] at hd
          · simp [h3] at hd
          · simp [hr] at hd
          · simp [h5] at hd
        · intro ha hb
          rw [fsLookup_fsWrite_ne _ _ hpaths, hmv] at hb
          exact absurd ha hb
      | true =>
        have hshape := lessonTaskRun_success_shape fs0 s h1 h2 h3
          (fun hx => absurd hx (by simp [hr])) h5 h6
        rw [hshape]
        refine ⟨?_, ?_, ?_⟩
        · intro _
          refine ⟨[LEvent.ensureLessonDir, LEvent.extractData, LEvent.localizeImages]
              ++ (lessonVideoPhase fs0 s).2.1
              ++ (if s.hasResources then [LEvent.ensureResourcesDir] else []), rfl,
              by simp, ?_, ?_⟩
          · intro hm
            simp [hr] at hm
            exact hvm hm
          · intro hm
            simp [hr] at hm
            exact hvh hm
        · intro hd
          rcases hd with hd | hd | hd | hd | hd
          · simp [h1] at hd
          · simp [h2] at hd
          · simp [h3] at hd
          · simp [hr] at hd
          · simp [h5] at hd
        · intro ha hb
          refine ⟨by simp, ?_⟩
          rw [fsLookup_fsWrite_ne _ _ hpaths.symm, fsLookup_fsWrite_self]

/-- Witness for C2 at a concrete all-succeeding lesson over an empty file
system. -/
theorem lessonManifest_written_last_witness :
    LEvent.writeManifest ∈
      (lessonTaskRun [] ⟨"d", true, true, true, "", none, false, true, true, true⟩).trace
    ∧ fsLookup (lessonTaskRun [] ⟨"d", true, true, true, "", none, false, true, true, true⟩).fs
        ("d" ++ "/index.html") = some 1 := by
  have h := (lessonManifest_written_last []
    ⟨"d", true, true, true, "", none, false, true, true, true⟩).2.2 (by decide) (by decide)
  exact ⟨h.1, h.2⟩

/-! ## C4: per-task catch keeps counters balanced -/

/-- Every executed lesson task settles in exactly one of two shapes:
completed (counter 1/0, no error callback) or failed (counter 0/1, error
callback fired), matching the task-boundary try/catch. -/
theorem lessonTaskRun_outcome (fs : FS) (s : LessonSpec) :
    ((lessonTaskRun fs s).completedDelta = 1 ∧ (lessonTaskRun fs s).failedDelta = 0
      ∧ (lessonTaskRun fs s).errorReported = false)
    ∨ ((lessonTaskRun fs s).completedDelta = 0 ∧ (lessonTaskRun fs s).failedDelta = 1
      ∧ (lessonTaskRun fs s).errorReported = true) := by
  unfold lessonTaskRun
  split_ifs <;> simp [lessonFail]

/-- Claim C4: exceptions inside one lesson task are absorbed at the task
boundary — the task function is total, reports the failure through the
error callback and the failure counter, and each executed task increments
exactly one of the two counters, so after all `n` tasks have run the
summary satisfies `completedLessons + failedLessons = n`. -/
theorem lesson_failures_isolated (fs : FS) (specs : List LessonSpec) :
    (runLessonCounters fs specs).1 + (runLessonCounters fs specs).2 = specs.length
    ∧ (∀ s : LessonSpec,
        (lessonTaskRun fs s).completedDelta + (lessonTaskRun fs s).failedDelta = 1
        ∧ ((lessonTaskRun fs s).errorReported = true ↔
            (lessonTaskRun fs s).failedDelta = 1)) := by
  have hone : ∀ s : LessonSpec,
      (lessonTaskRun fs s).completedDelta + (lessonTaskRun fs s).failedDelta = 1
      ∧ ((lessonTaskRun fs s).errorReported = true ↔
          (lessonTaskRun fs s).failedDelta = 1) := by
    intro s
    rcases lessonTaskRun_outcome fs s with ⟨hc, hf, he⟩ | ⟨hc, hf, he⟩ <;>
      simp [hc, hf, he]
  refine ⟨?_, hone⟩
  have key : ∀ (l : List LessonSpec) (a b : Nat),
      (l.foldl (fun acc s =>
        ((acc.1 + (lessonTaskRun fs s).completedDelta),
         (acc.2 + (lessonTaskRun fs s).failedDelta))) (a, b)).1
      + (l.foldl (fun acc s =>
        ((acc.1 + (lessonTaskRun fs s).completedDelta),
         (acc.2 + (lessonTaskRun fs s).failedDelta))) (a, b)).2
      = a + b + l.length := by
    intro l
    induction l with
    | nil => intro a b; simp
    | cons s tl ih =>
      intro a b
      have := ih (a + (lessonTaskRun fs s).completedDelta)
        (b + (lessonTaskRun fs s).failedDelta)
      simp only [List.foldl_cons, List.length_cons]
      rw [this]
      have h1 := (hone s).1
      omega
  have := key specs 0 0
  simpa [runLessonCounters] using this

/-- Witness for C4 at two concrete lessons, one succeeding and one whose
extraction throws. -/
theorem lesson_failures_isolated_witness :
    (runLessonCounters []
      [⟨"a", true, true, true, "", none, false, true, true, true⟩,
       ⟨"b", true, false, true, "", none, false, true, true, true⟩]).1
    + (runLessonCounters []
      [⟨"a", true, true, true, "", none, false, true, true, true⟩,
       ⟨"b", true, false, true, "", none, false, true, true, true⟩]).2 = 2 :=
  (lesson_failures_isolated []
    [⟨"a", true, true, true, "", none, false, true, true, true⟩,
     ⟨"b", true, false, true, "", none, false, true, true, true⟩]).1

/-! ## C5: regenerated index lists modules in ascending index order -/

/-- The comparator of the manifest-present branch always falls through to
index comparison: the `moduleDirName` lookup misses on both sides. -/
theorem moduleCmp_le_iff (order : List (String × Nat)) (a b : CourseInfoEntry) :
    moduleCmp order a b ≤ 0 ↔ a.index ≤ b.index := by
  simp only [moduleCmp, moduleOrderRank, courseInfoDirName, ne_eq, not_true_eq_false,
    if_false]
  omega

/-- The integer comparator of the manifest-absent branch. -/
theorem intCmp_le_iff (a b : CourseInfoEntry) :
    ((a.index : Int) - (b.index : Int) ≤ 0) ↔ a.index ≤ b.index := by
  omega

/-- Two sorted permutations of each other with pairwise-distinct index
keys are equal. -/
theorem sorted_nodup_index_eq {l₁ l₂ : List CourseInfoEntry}
    (hp : l₁.Perm l₂)
    (hs₁ : l₁.Sorted (fun a b => a.index ≤ b.index))
    (hs₂ : l₂.Sorted (fun a b => a.index ≤ b.index))
    (hn : (l₁.map (fun e => e.index)).Nodup) : l₁ = l₂ := by
  haveI : IsAntisymm CourseInfoEntry (fun a b => a.index < b.index ∨ a = b) := by
    refine ⟨?_⟩
    intro a b hab hba
    rcases hab with h | h
    · rcases hba with h' | h'
      · omega
      · exact h'.symm
    · exact h
  have hn₂ : (l₂.map (fun e => e.index)).Nodup := ((hp.map _).nodup) hn
  have conv : ∀ (l : List CourseInfoEntry), l.Sorted (fun a b => a.index ≤ b.index) →
      (l.map (fun e => e.index)).Nodup →
      l.Sorted (fun a b => a.index < b.index ∨ a = b) := by
    intro l hs hnd
    have hne : l.Pairwise (fun a b => a.index ≠ b.index) := List.pairwise_map.mp hnd
    exact (hs.and hne).imp (fun h => Or.inl (Nat.lt_of_le_of_ne h.1 h.2))
  exact List.eq_of_perm_of_sorted hp (conv l₁ hs₁ hn) (conv l₂ hs₂ hn₂)

/-- Claim C5: after the regenerate-index sort, the module entries are in
ascending order of their `index` field, the sort is a permutation of the
scanned entries, and — as long as the module indexes are pairwise
distinct — the output is the same for every scan order. -/
theorem regenerateIndex_module_order (mods : List ManifestModule)
    (info info' : List CourseInfoEntry) :
    List.Sorted (fun a b => a.index ≤ b.index) (sortCourseInfo mods info)
    ∧ (sortCourseInfo mods info).Perm info
    ∧ (info.Perm info' → (info.map (fun e => e.index)).Nodup →
        sortCourseInfo mods info = sortCourseInfo mods info') := by
  have main : ∀ l : List CourseInfoEntry,
      List.Sorted (fun a b => a.index ≤ b.index) (sortCourseInfo mods l)
      ∧ (sortCourseInfo mods l).Perm l := by
    intro l
    unfold sortCourseInfo
    by_cases hm : mods ≠ []
    · rw [if_pos hm]
      haveI ht : IsTrans CourseInfoEntry
          (fun a b => moduleCmp (manifestOrderMap mods) a b ≤ 0) := by
        refine ⟨?_⟩
        intro a b c hab hbc
        simp only [moduleCmp_le_iff] at *
        omega
      haveI hto : IsTotal CourseInfoEntry
          (fun a b => moduleCmp (manifestOrderMap mods) a b ≤ 0) := by
        refine ⟨?_⟩
        intro a b
        simp only [moduleCmp_le_iff]
        omega
      refine ⟨?_, List.perm_insertionSort _ _⟩
      have := List.sorted_insertionSort
        (fun a b => moduleCmp (manifestOrderMap mods) a b ≤ 0) l
      exact this.imp (fun h => (moduleCmp_le_iff _ _ _).mp h)
    · rw [if_neg hm]
      haveI ht : IsTrans CourseInfoEntry
          (fun a b => (a.index : Int) - (b.index : Int) ≤ 0) := by
        refine ⟨?_⟩
        intro a b c hab hbc
        simp only [intCmp_le_iff] at *
        omega
      haveI hto : IsTotal CourseInfoEntry
          (fun a b => (a.index : Int) - (b.index : Int) ≤ 0) := by
        refine ⟨?_⟩
        intro a b
        simp only [intCmp_le_iff]
        omega
      refine ⟨?_, List.perm_insertionSort _ _⟩
      have := List.sorted_insertionSort
        (fun a b => (a.index : Int) - (b.index : Int) ≤ 0) l
      exact this.imp (fun h => (intCmp_le_iff _ _).mp h)
  refine ⟨(main info).1, (main info).2, ?_⟩
  intro hp hn
  exact sorted_nodup_index_eq
    ((main info).2.trans (hp.trans (main info').2.symm))
    (main info).1 (main info').1
    (((main info).2.map (fun e => e.index)).symm.nodup hn)

/-- Witness for C5 at a concrete manifest and two scan orders of the same
three modules. -/
theorem regenerateIndex_module_order_witness :
    sortCourseInfo [⟨1, "A", "1-A"⟩]
        [⟨"C", 2, 3⟩, ⟨"A", 1, 1⟩, ⟨"B", 0, 2⟩]
      = sortCourseInfo [⟨1, "A", "1-A"⟩]
        [⟨"B", 0, 2⟩, ⟨"C", 2, 3⟩, ⟨"A", 1, 1⟩] :=
  (regenerateIndex_module_order [⟨1, "A", "1-A"⟩]
      [⟨"C", 2, 3⟩, ⟨"A", 1, 1⟩, ⟨"B", 0, 2⟩]
      [⟨"B", 0, 2⟩, ⟨"C", 2, 3⟩, ⟨"A", 1, 1⟩]).2.2
    (by decide) (by decide)

/-! ## C6: bounded polling and the reconstruction fallback -/

/-- Structure of the polling loop from any start index: at most `10 - a`
probes, every sleep is exactly 1000 ms, and if every probe in range
misses, the loop returns nothing after emitting the full
probe/wait-alternating trace. -/
theorem pollTrace_shape (probe : Nat → Option String) :
    ∀ a, (List.countP isProbeEvent (pollTrace probe a).1 ≤ 10 - a)
      ∧ (∀ ms, PollEvent.wait ms ∈ (pollTrace probe a).1 → ms = 1000)
      ∧ ((∀ i, a ≤ i → i < 10 → probe i = none) →
          (pollTrace probe a).2 = none
          ∧ (pollTrace probe a).1 =
              (List.range' a (10 - a)).flatMap
                (fun i => [PollEvent.probe i, PollEvent.wait 1000])) := by
  have key : ∀ f a, 10 - a = f →
      (List.countP isProbeEvent (pollTrace probe a).1 ≤ 10 - a)
      ∧ (∀ ms, PollEvent.wait ms ∈ (pollTrace probe a).1 → ms = 1000)
      ∧ ((∀ i, a ≤ i → i < 10 → probe i = none) →
          (pollTrace probe a).2 = none
          ∧ (pollTrace probe a).1 =
              (List.range' a (10 - a)).flatMap
                (fun i => [PollEvent.probe i, PollEvent.wait 1000])) := by
    intro f
    induction f with
    | zero =>
      intro a ha
      have h10 : ¬ a < 10 := by omega
      rw [pollTrace]
      simp [h10, ha]
    | succ f ih =>
      intro a ha
      have h10 : a < 10 := by omega
      rw [pollTrace]
      cases hp : probe a with
      | some v =>
        refine ⟨by simp [h10, hp, isProbeEvent]; omega, by simp [h10, hp], ?_⟩
        intro hmiss
        exact absurd hp (by simp [hmiss a (le_refl a) h10])
      | none =>
        obtain ⟨ihc, ihw, ihm⟩ := ih (a + 1) (by omega)
        refine ⟨?_, ?_, ?_⟩
        · simp only [h10, if_pos, hp]
          simp only [List.countP_cons, isProbeEvent]
          have : List.countP isProbeEvent (pollTrace probe (a + 1)).1 ≤ 10 - (a + 1) := ihc
          simp
          omega
        · intro ms hms
          simp only [h10, if_pos, hp] at hms
          simp at hms
          rcases hms with hms | hms
          · exact hms
          · exact ihw ms hms
        · intro hmiss
          obtain ⟨ih2, ih1⟩ := ihm (fun i hi h10' => hmiss i (by omega) h10')
          have hrange : List.range' a (10 - a) = a :: List.range' (a + 1) (10 - (a + 1)) := by
            have : 10 - a = (10 - (a + 1)) + 1 := by omega
            rw [this, List.range'_succ]
          refine ⟨by simp [h10, hp, ih2], ?_⟩
          simp only [h10, if_pos, hp]
          rw [hrange]
          simp [List.flatMap_cons, ih1]
  intro a
  exact key (10 - a) a rfl

/-- Claim C6: with a native video id and a successful play interaction,
the acquisition polls the injected probe at most 10 times with a fixed
1000 ms sleep after each miss; if all probes miss and the page data
carries a video object with the matching id, a playback id and a
playback token, the resulting URL is exactly
`https://stream.video.skool.com/<playbackId>.m3u8?token=<playbackToken>`;
if that precondition fails as well, the lesson proceeds with no video. -/
theorem nativeVideo_acquisition (hasPlay clickOk : Bool) (probe : Nat → Option String)
    (videoId : String) (videoData : Option VideoPageData) :
    (List.countP isProbeEvent
        (acquireNativeVideo hasPlay clickOk probe videoId videoData).2 ≤ 10)
    ∧ (∀ ms, PollEvent.wait ms ∈
        (acquireNativeVideo hasPlay clickOk probe videoId videoData).2 → ms = 1000)
    ∧ ((∀ i, i < 10 → probe i = none) → hasPlay = true → clickOk = true →
        (∀ p t, videoData = some ⟨some videoId, some p, some t⟩ → p ≠ "" → t ≠ "" →
          (acquireNativeVideo hasPlay clickOk probe videoId videoData).1 =
            some ("https://stream.video.skool.com/" ++ p ++ ".m3u8?token=" ++ t))
        ∧ (fallbackReconstruct videoData videoId = none →
            (acquireNativeVideo hasPlay clickOk probe videoId videoData).1 = none)) := by
  obtain ⟨hc, hw, hm⟩ := pollTrace_shape probe 0
  cases hasPlay with
  | false =>
    refine ⟨by simp [acquireNativeVideo], by simp [acquireNativeVideo], ?_⟩
    intro _ hfalse
    exact absurd hfalse (by simp)
  | true =>
    cases clickOk with
    | false =>
      refine ⟨by simp [acquireNativeVideo], by simp [acquireNativeVideo], ?_⟩
      intro _ _ hfalse
      exact absurd hfalse (by simp)
    | true =>
      have htrace : (acquireNativeVideo true true probe videoId videoData).2 =
          (pollTrace probe 0).1 := by
        unfold acquireNativeVideo
        cases hres : (pollTrace probe 0).2 <;> simp [hres]
      refine ⟨?_, ?_, ?_⟩
      · rw [htrace]
        exact le_trans hc (by omega)
      · intro ms hms
        rw [htrace] at hms
        exact hw ms hms
      · intro hmiss _ _
        obtain ⟨hnone, _⟩ := hm (fun i _ hi => hmiss i hi)
        have hacq : (acquireNativeVideo true true probe videoId videoData).1 =
            fallbackReconstruct videoData videoId := by
          unfold acquireNativeVideo
          simp [hnone]
        constructor
        · intro p t hvd hp ht
          rw [hacq, hvd]
          simp [fallbackReconstruct, hp, ht]
        · intro hfb
          rw [hacq, hfb]

/-- Witness for C6: an always-missing probe with page data carrying the
matching id, playback id `pb` and token `tok`. -/
theorem nativeVideo_acquisition_witness :
    (acquireNativeVideo true true (fun _ => none) "vid"
        (some ⟨some "vid", some "pb", some "tok"⟩)).1 =
      some ("https://stream.video.skool.com/" ++ "pb" ++ ".m3u8?token=" ++ "tok") :=
  ((nativeVideo_acquisition true true (fun _ => none) "vid"
      (some ⟨some "vid", some "pb", some "tok"⟩)).2.2
    (fun _ _ => rfl) rfl rfl).1 "pb" "tok" rfl (by decide) (by decide)

/-! ## C8: the image filename is deterministic but not collision-resistant -/

/-- Claim C8 asserts that distinct image URLs always receive distinct
local filenames.  The "short hash" is in fact the first 10 base64
characters of the URL itself, which depend only on the first bytes of the
URL — identical for all `https://` URLs — so two distinct URLs with the
same basename collide.  Concretely, `https://a.com/pic.png` and
`https://b.com/pic.png` both map to `img_aHR0cHM6Ly_pic.png`. -/
theorem localizedImageName_collision :
    localizedImageName "https://a.com/pic.png" = localizedImageName "https://b.com/pic.png"
    ∧ "https://a.com/pic.png" ≠ "https://b.com/pic.png" := by
  refine ⟨by decide, by decide⟩

/-- No base64 output character is an underscore. -/
theorem base64Digit_ne_underscore (n : Nat) : base64Digit n ≠ '_' := by
  have halpha : ∀ c ∈ base64Alphabet.data, c ≠ '_' := by decide
  unfold base64Digit
  rw [List.getD_eq_getD_get?]
  cases h : base64Alphabet.data.get? n with
  | none => simp
  | some c =>
    simp only [Option.getD_some]
    exact halpha c (List.get?_mem h)

/-- The base64 encoding of any byte list contains no underscore. -/
theorem base64_no_underscore : ∀ bs : List Nat, '_' ∉ base64Encode bs
  | b1 :: b2 :: b3 :: rest => by
    intro hm
    simp only [base64Encode, List.mem_cons] at hm
    rcases hm with h | h | h | h | h
    · exact base64Digit_ne_underscore _ h.symm
    · exact base64Digit_ne_underscore _ h.symm
    · exact base64Digit_ne_underscore _ h.symm
    · exact base64Digit_ne_underscore _ h.symm
    · exact base64_no_underscore rest h
  | [b1, b2] => by
    intro hm
    simp only [base64Encode, List.mem_cons] at hm
    rcases hm with h | h | h | h | h
    · exact base64Digit_ne_underscore _ h.symm
    · exact base64Digit_ne_underscore _ h.symm
    · exact base64Digit_ne_underscore _ h.symm
    · exact absurd h (by decide)
    · exact absurd h (by simp)
  | [b1] => by
    intro hm
    simp only [base64Encode, List.mem_cons] at hm
    rcases hm with h | h | h | h | h
    · exact base64Digit_ne_underscore _ h.symm
    · exact base64Digit_ne_underscore _ h.symm
    · exact absurd h (by decide)
    · exact absurd h (by decide)
    · exact absurd h (by simp)
  | [] => by simp [base64Encode]

/-- Splitting two equal strings at their first underscore: equal
underscore-free heads force equal heads and equal tails. -/
theorem split_at_first_underscore :
    ∀ (p₁ p₂ b₁ b₂ : List Char), '_' ∉ p₁ → '_' ∉ p₂ →
      p₁ ++ '_' :: b₁ = p₂ ++ '_' :: b₂ → p₁ = p₂ ∧ b₁ = b₂ := by
  intro p₁
  induction p₁ with
  | nil =>
    intro p₂ b₁ b₂ _ h₂ h
    cases p₂ with
    | nil => simpa using h
    | cons c p₂' =>
      simp only [List.nil_append, List.cons_append, List.cons.injEq] at h
      exfalso
      apply h₂
      rw [← h.1]
      exact List.mem_cons_self _ _
  | cons c p₁' ih =>
    intro p₂ b₁ b₂ h₁ h₂ h
    cases p₂ with
    | nil =>
      simp only [List.cons_append, List.nil_append, List.cons.injEq] at h
      exfalso
      apply h₁
      rw [h.1]
      exact List.mem_cons_self _ _
    | cons d p₂' =>
      simp only [List.cons_append, List.cons.injEq] at h
      obtain ⟨hcd, hrest⟩ := h
      have hr := ih p₂' b₁ b₂ (fun hm => h₁ (List.mem_cons_of_mem _ hm))
        (fun hm => h₂ (List.mem_cons_of_mem _ hm)) hrest
      exact ⟨by rw [hcd, hr.1], hr.2⟩

/-- Character data of a constructed string. -/
theorem data_mk (l : List Char) : (String.mk l).data = l := rfl

/-- Claim C8, amended: the local filename is a deterministic function of
the image URL, and two URLs receive the same filename exactly when their
10-character base64 prefix and their pathname basename both agree — so
filenames are distinct only under that condition, not for all distinct
URL pairs. -/
theorem localizedImageName_amended (u v : String) :
    localizedImageName u = localizedImageName v ↔
      ((base64Encode (strUtf8 u)).take 10 = (base64Encode (strUtf8 v)).take 10
        ∧ pathBasename (urlPathname u) = pathBasename (urlPathname v)) := by
  constructor
  · intro h
    have hdata := congrArg String.data h
    simp only [localizedImageName, String.data_append, data_mk] at hdata
    simp only [List.append_assoc, List.singleton_append, List.cons_append, List.nil_append,
      List.cons.injEq, true_and] at hdata
    have hcanc : List.take 10 (base64Encode (strUtf8 u))
          ++ '_' :: (pathBasename (urlPathname u)).data
        = List.take 10 (base64Encode (strUtf8 v))
          ++ '_' :: (pathBasename (urlPathname v)).data := hdata
    have hsplit := split_at_first_underscore _ _ _ _
      (fun hm => base64_no_underscore (strUtf8 u) (List.take_subset 10 _ hm))
      (fun hm => base64_no_underscore (strUtf8 v) (List.take_subset 10 _ hm))
      hcanc
    exact ⟨hsplit.1, string_eq_of_data_eq hsplit.2⟩
  · intro h
    unfold localizedImageName
    rw [h.1, h.2]

/-- Witness for the amended C8 theorem: the two colliding URLs of the
counterexample have equal prefix and basename, hence equal filenames. -/
theorem localizedImageName_amended_witness :
    localizedImageName "https://a.com/pic.png" =
      localizedImageName "https://b.com/pic.png" :=
  (localizedImageName_amended "https://a.com/pic.png" "https://b.com/pic.png").mpr
    ⟨by decide, by decide⟩

/-! ## C1: the pull-based worker pool -/

/-- Invariant of every reachable pool state: the worker count never
changes, the started tasks are exactly the cursor prefix of the task
range (each claimed index is claimed exactly once, in cursor order), and
a returned worker can only exist once the cursor has passed the end of
the task list. -/
theorem poolInvariant (n w : Nat) :
    ∀ s, PoolReachable n w s →
      s.workers.length = w
      ∧ s.started = List.range (min s.cursor n)
      ∧ (WStatus.done ∈ s.workers → n ≤ s.cursor) := by
  intro s h
  induction h with
  | refl =>
    refine ⟨List.length_replicate _ _, by simp [poolInit], ?_⟩
    intro hd
    have := List.eq_of_mem_replicate hd
    exact absurd this (by decide)
  | @tail sb sc hsteps step ih =>
    obtain ⟨ihlen, ihstart, ihdone⟩ := ih
    cases step with
    | claimRun i hidle hlt =>
      refine ⟨by simp [List.length_set, ihlen], ?_, ?_⟩
      · dsimp only
        rw [ihstart]
        have h1 : min sb.cursor n = sb.cursor := Nat.min_eq_left (Nat.le_of_lt hlt)
        have h2 : min (sb.cursor + 1) n = sb.cursor + 1 := Nat.min_eq_left hlt
        rw [h1, h2, List.range_succ]
      · intro hd
        dsimp only at hd ⊢
        rcases List.mem_or_eq_of_mem_set hd with hmem | heq
        · exact Nat.le_succ_of_le (ihdone hmem)
        · exact absurd heq (by simp)
    | claimDone i hidle hge =>
      refine ⟨by simp [List.length_set, ihlen], ?_, ?_⟩
      · dsimp only
        rw [ihstart]
        have h1 : min sb.cursor n = n := Nat.min_eq_right hge
        have h2 : min (sb.cursor + 1) n = n := Nat.min_eq_right (Nat.le_succ_of_le hge)
        rw [h1, h2]
      · intro _
        exact Nat.le_succ_of_le hge
    | finish i t hrun =>
      refine ⟨by simp [List.length_set, ihlen], ihstart, ?_⟩
      intro hd
      dsimp only at hd ⊢
      rcases List.mem_or_eq_of_mem_set hd with hmem | heq
      · exact ihdone hmem
      · exact absurd heq (by simp)

/-- Replacing one list element changes a mapped sum by exactly the weight
difference. -/
theorem sum_map_set (f : WStatus → Nat) :
    ∀ (l : List WStatus) (i : Nat) (x w : WStatus), l.get? i = some w →
      ((l.set i x).map f).sum + f w = (l.map f).sum + f x := by
  intro l
  induction l with
  | nil =>
    intro i x w h
    simp at h
  | cons a tl ih =>
    intro i x w h
    cases i with
    | zero =>
      simp only [List.get?] at h
      injection h with h
      subst h
      simp only [List.set, List.map_cons, List.sum_cons]
      omega
    | succ j =>
      simp only [List.get?] at h
      have := ih j x w h
      simp only [List.set, List.map_cons, List.sum_cons]
      omega

/-- Every pool step strictly decreases the termination measure, so no
execution of the pool runs forever. -/
theorem poolMeasure_decreases (n : Nat) {s s' : PoolState} (h : PoolStep n s s') :
    poolMeasure n s' < poolMeasure n s := by
  cases h with
  | claimRun i hidle hlt =>
    have hs := sum_map_set (fun w => match w with
      | WStatus.idle => 1 | WStatus.running _ => 2 | WStatus.done => 0)
      s.workers i (WStatus.running s.cursor) WStatus.idle hidle
    simp only [] at hs
    unfold poolMeasure
    dsimp only
    have h1 : min s.cursor n = s.cursor := Nat.min_eq_left (Nat.le_of_lt hlt)
    have h2 : min (s.cursor + 1) n = s.cursor + 1 := Nat.min_eq_left hlt
    rw [h1, h2]
    omega
  | claimDone i hidle hge =>
    have hs := sum_map_set (fun w => match w with
      | WStatus.idle => 1 | WStatus.running _ => 2 | WStatus.done => 0)
      s.workers i WStatus.done WStatus.idle hidle
    simp only [] at hs
    unfold poolMeasure
    dsimp only
    have h1 : min s.cursor n = n := Nat.min_eq_right hge
    have h2 : min (s.cursor + 1) n = n := Nat.min_eq_right (Nat.le_succ_of_le hge)
    rw [h1, h2]
    omega
  | finish i t hrun =>
    have hs := sum_map_set (fun w => match w with
      | WStatus.idle => 1 | WStatus.running _ => 2 | WStatus.done => 0)
      s.workers i WStatus.idle (WStatus.running t) hrun
    simp only [] at hs
    unfold poolMeasure
    dsimp only
    omega

/-- A pool that has not returned always has an enabled step: no deadlock
before completion. -/
theorem pool_progress (n : Nat) (s : PoolState) (hnd : ¬ poolDone s) :
    ∃ s', PoolStep n s s' := by
  unfold poolDone at hnd
  push_neg at hnd
  obtain ⟨w, hw, hne⟩ := hnd
  obtain ⟨i, hi⟩ := List.mem_iff_get?.mp hw
  cases w with
  | idle =>
    by_cases hc : s.cursor < n
    · exact ⟨_, PoolStep.claimRun s i hi hc⟩
    · exact ⟨_, PoolStep.claimDone s i hi (by omega)⟩
  | running t => exact ⟨_, PoolStep.finish s i t hi⟩
  | done => exact absurd rfl hne

/-- Unrolling the sequential for-loop fold. -/
theorem foldl_append_eq (l : List Nat) :
    ∀ init : List Nat, l.foldl (fun acc t => acc ++ [t]) init = init ++ l := by
  induction l with
  | nil =>
    intro init
    simp
  | cons a tl ih =>
    intro init
    simp only [List.foldl_cons]
    rw [ih (init ++ [a]), List.append_assoc, List.singleton_append]

/-- Claim C1: in every reachable state of the pool spawned by
`runConcurrent` for `n` tasks under bound `K` (worker count
`min K n`), no task has been started twice, only real task indices are
started, at most `min K n` tasks are in flight, and when the pool
returns (`Promise.all` resolves, i.e. every worker is done) every one of
the `n` tasks has been started exactly once and none is still in flight;
moreover every step decreases a termination measure and a non-done pool
always has an enabled step, so the scheduler terminates and returns only
after all tasks settle; and the `K <= 1` (or single-task) branch executes
the tasks strictly sequentially in list order. -/
theorem runConcurrent_schedules (n K : Nat) (hK : 1 ≤ K) :
    (∀ s, PoolReachable n (min K n) s →
        s.started.Nodup
        ∧ (∀ t ∈ s.started, t < n)
        ∧ inflight s ≤ min K n
        ∧ (poolDone s → s.started = List.range n ∧ inflight s = 0))
    ∧ (∀ s s', PoolStep n s s' → poolMeasure n s' < poolMeasure n s)
    ∧ (∀ s, ¬ poolDone s → ∃ s', PoolStep n s s')
    ∧ runSequentialOrder n = List.range n := by
  refine ⟨?_, fun s s' h => poolMeasure_decreases n h,
    fun s h => pool_progress n s h, ?_⟩
  · intro s hreach
    obtain ⟨hlen, hstart, hdone⟩ := poolInvariant n (min K n) s hreach
    refine ⟨by rw [hstart]; exact List.nodup_range _, ?_, ?_, ?_⟩
    · intro t ht
      rw [hstart] at ht
      have := List.mem_range.mp ht
      omega
    · exact hlen ▸ List.countP_le_length _
    · intro hpd
      have hfl : inflight s = 0 := by
        unfold inflight
        rw [List.countP_eq_zero]
        intro w hw
        rw [hpd w hw]
        decide
      refine ⟨?_, hfl⟩
      rw [hstart]
      rcases Nat.eq_zero_or_pos n with hn | hn
      · subst hn
        simp
      · have hw1 : 1 ≤ min K n := le_min hK hn
        have hmem : WStatus.done ∈ s.workers := by
          cases hws : s.workers with
          | nil =>
            rw [hws] at hlen
            simp at hlen
            omega
          | cons a tl =>
            have ha : a ∈ s.workers := by
              rw [hws]
              exact List.mem_cons_self _ _
            have hda : a = WStatus.done := hpd a ha
            rw [← hda]
            exact List.mem_cons_self _ _
        have hcur := hdone hmem
        rw [Nat.min_eq_right hcur]
  · unfold runSequentialOrder
    rw [foldl_append_eq, List.nil_append]

/-- Witness for C1 at three tasks and bound two, evaluated at the initial
pool state, plus the sequential branch for three tasks. -/
theorem runConcurrent_schedules_witness :
    (poolInit (min 2 3)).started.Nodup ∧ runSequentialOrder 3 = List.range 3 :=
  ⟨((runConcurrent_schedules 3 2 (by decide)).1 (poolInit (min 2 3))
      Relation.ReflTransGen.refl).1,
    (runConcurrent_schedules 3 2 (by decide)).2.2.2⟩

end SkoolDL
